import Mathlib

/-!
Verification of the centerline-processing and tube-mesh-generation core of
the EVARSim module (src/EVARSim/EVARSim.py), shallowly embedded over an
arbitrary linear ordered field `K` (exact arithmetic in place of floats).
External library calls (numpy norms and trigonometry, the VTK tube/clean/
normal filters and the cardinal-spline evaluator) enter the model as
function parameters; everything the repository itself computes is
translated directly from the source.
-/

set_option maxHeartbeats 1000000
set_option linter.unusedSectionVars false

variable {K : Type*} [LinearOrderedField K]

/-- A 3D point, `Point3` of the data model. -/
abbrev Pt (K : Type*) := K × K × K

/-- The origin, used as the default value where VTK would read a point. -/
def z3 : Pt K := (0, 0, 0)

/-- Componentwise sum of two vectors. -/
def add3 (a b : Pt K) : Pt K := (a.1 + b.1, a.2.1 + b.2.1, a.2.2 + b.2.2)

/-- Componentwise difference of two vectors. -/
def sub3 (a b : Pt K) : Pt K := (a.1 - b.1, a.2.1 - b.2.1, a.2.2 - b.2.2)

/-- Scalar multiple of a vector. -/
def smul3 (c : K) (v : Pt K) : Pt K := (c * v.1, c * v.2.1, c * v.2.2)

/-- Componentwise negation of a vector. -/
def neg3 (v : Pt K) : Pt K := (-v.1, -v.2.1, -v.2.2)

/-- Componentwise division of a vector by a scalar (python `v / n`). -/
def divs3 (v : Pt K) (c : K) : Pt K := (v.1 / c, v.2.1 / c, v.2.2 / c)

/-- `np.cross` of two 3D vectors. -/
def cross3 (a b : Pt K) : Pt K :=
  (a.2.1 * b.2.2 - a.2.2 * b.2.1,
   a.2.2 * b.1 - a.1 * b.2.2,
   a.1 * b.2.1 - a.2.1 * b.1)

/-- `point1 + t * (point2 - point1)`, the interpolation formula of
`_positionTubeAlongCenterline`. -/
def lerp3 (a b : Pt K) (t : K) : Pt K :=
  (a.1 + t * (b.1 - a.1), a.2.1 + t * (b.2.1 - a.2.1), a.2.2 + t * (b.2.2 - a.2.2))

/-- Distance of two points as the source computes it:
`np.linalg.norm(currentPoint - prevPoint)`, with the numpy norm supplied as
the parameter `nrm`. -/
def dist3 (nrm : Pt K → K) (a b : Pt K) : K := nrm (sub3 b a)

/-- The consecutive point pairs of a path (segment `i` joins point `i` to
point `i+1`). -/
def segPairs (pts : List (Pt K)) : List (Pt K × Pt K) := pts.zip pts.tail

/-- Total arc length of a path: the sum of consecutive segment lengths,
exactly the `totalLength` accumulation of `_positionTubeAlongCenterline`. -/
def totalArcLength (nrm : Pt K → K) (pts : List (Pt K)) : K :=
  ((segPairs pts).map (fun pr => dist3 nrm pr.1 pr.2)).sum

/-- The `startDistance` computation of `_positionTubeAlongCenterline`
(lines 769-776 of the source). -/
def tubeStartDistance (totalLength tubeLength position : K) : K :=
  if position = 0 then 0
  else if position = 1 then max 0 (totalLength - tubeLength)
  else max 0 (position * totalLength - tubeLength / 2)

/-- The segment-walking loop of `_positionTubeAlongCenterline` (lines
791-820): for every segment, with the accumulated `segStart`, emit the
interpolated start point, the segment's far endpoint when the segment lies
fully inside the range, and the interpolated end point, under exactly the
source's comparisons. -/
def walkSegments (nrm : Pt K → K) (startD endD : K) :
    List (Pt K × Pt K) → K → List (Pt K)
  | [], _ => []
  | pr :: rest, segStart =>
    let segLen := dist3 nrm pr.1 pr.2
    let segEnd := segStart + segLen
    (if startD < segEnd ∧ segStart < endD then
      (if segStart < startD ∧ startD < segEnd then
        [lerp3 pr.1 pr.2 ((startD - segStart) / segLen)] else [])
      ++ (if startD ≤ segStart ∧ segEnd ≤ endD then [pr.2] else [])
      ++ (if segStart < endD ∧ endD < segEnd then
        [lerp3 pr.1 pr.2 ((endD - segStart) / segLen)] else [])
    else [])
    ++ walkSegments nrm startD endD rest segEnd

/-- The extraction body of `_positionTubeAlongCenterline`: the path's first
point when the start offset is exactly 0, then the walked segments. -/
def extractRange (nrm : Pt K → K) (pts : List (Pt K)) (startD endD : K) :
    List (Pt K) :=
  (if startD = 0 then [pts.headD z3] else [])
    ++ walkSegments nrm startD endD (segPairs pts) 0

/-- `_positionTubeAlongCenterline`: extract the sub-range of the centerline
for a tube of the given length at the given normalized position. -/
def positionTubeAlongCenterline (nrm : Pt K → K) (pts : List (Pt K))
    (tubeLength position : K) : List (Pt K) :=
  if pts.length < 2 then pts
  else
    let T := totalArcLength nrm pts
    let startD := tubeStartDistance T tubeLength position
    let endD := min T (startD + tubeLength)
    extractRange nrm pts startD endD

/-- A polygonal mesh: vertices plus triangles given by vertex indices
(`vtkPolyData` restricted to what the tube builder produces). -/
structure Mesh (K : Type*) where
  points : List (Pt K)
  tris : List (ℕ × ℕ × ℕ)

/-- The empty mesh, `vtk.vtkPolyData()` with no geometry: the failure
result `_createTubeAlongCurve` returns for insufficient input. -/
def Mesh.empty : Mesh K := ⟨[], []⟩

/-- `vtkAppendPolyData` on two inputs: concatenate the point lists and
re-offset the second mesh's cell indices. -/
def appendMesh (m1 m2 : Mesh K) : Mesh K :=
  { points := m1.points ++ m2.points,
    tris := m1.tris ++ m2.tris.map (fun t =>
      (t.1 + m1.points.length, t.2.1 + m1.points.length, t.2.2 + m1.points.length)) }

/-- The external numeric and VTK library functions the tube builder calls,
supplied as parameters of the model: the capping-off `vtkTubeFilter`, the
`vtkCleanPolyData` pass (tolerance 1e-4), the `vtkPolyDataNormals` pass,
`np.linalg.norm`, `np.cos`, `np.sin` and the constant `2 * np.pi`. -/
structure VtkEnv (K : Type*) where
  tubeFilter : List (Pt K) → K → ℕ → Mesh K
  clean : Mesh K → Mesh K
  genNormals : Mesh K → Mesh K
  norm3 : Pt K → K
  cos : K → K
  sin : K → K
  twoPi : K

/-- `v / np.linalg.norm(v)` (total in the model: division by a zero norm
yields the zero vector where numpy would yield non-finite values). -/
def normalize3 (nrm : Pt K → K) (v : Pt K) : Pt K := divs3 v (nrm v)

/-- `_createCircularCap`: one center point, `resolution` rim points on the
circle of the given radius in the orthonormal basis derived from the
normal, and a fan of `resolution` triangles from the center closing modulo
`resolution`. -/
def createCircularCap (env : VtkEnv K) (center normal : Pt K) (radius : K)
    (resolution : ℕ) : Mesh K :=
  let n := normalize3 env.norm3 normal
  let up : Pt K := if |n.2.2| < 9 / 10 then (0, 0, 1) else (1, 0, 0)
  let u := normalize3 env.norm3 (cross3 n up)
  let v := normalize3 env.norm3 (cross3 n u)
  { points := center :: (List.range resolution).map (fun (i : ℕ) =>
      add3 center (smul3 radius
        (add3 (smul3 (env.cos (env.twoPi * (i : K) / (resolution : K))) u)
          (smul3 (env.sin (env.twoPi * (i : K) / (resolution : K))) v)))),
    tris := (List.range resolution).map (fun i => (0, i + 1, (i + 1) % resolution + 1)) }

/-- `_addRigidEndCaps`: compute the end tangents from the first/last point
pairs and append a circular cap at each end of the tube body. -/
def addRigidEndCaps (env : VtkEnv K) (tubeBody : Mesh K) (pts : List (Pt K))
    (radius : K) (resolution : ℕ) : Mesh K :=
  let firstPoint := pts.headD z3
  let lastPoint := pts.getLastD z3
  let dirs : Pt K × Pt K :=
    if 1 < pts.length then
      (normalize3 env.norm3 (sub3 (pts.getD 1 z3) firstPoint),
       normalize3 env.norm3 (sub3 lastPoint (pts.getD (pts.length - 2) z3)))
    else
      let d := normalize3 env.norm3 (sub3 lastPoint firstPoint)
      (d, d)
  appendMesh
    (appendMesh tubeBody (createCircularCap env firstPoint (neg3 dirs.1) radius resolution))
    (createCircularCap env lastPoint dirs.2 radius resolution)

/-- `_createTubeAlongCurve`: floor the resolution to 8, return the empty
mesh for fewer than 2 points, otherwise run the tube filter, add the rigid
end caps, clean, and generate normals. -/
def createTubeAlongCurve (env : VtkEnv K) (pts : List (Pt K)) (radius : K)
    (resolution : ℕ) : Mesh K :=
  let actualResolution := max resolution 8
  if pts.length < 2 then Mesh.empty
  else
    env.genNormals (env.clean
      (addRigidEndCaps env (env.tubeFilter pts radius actualResolution) pts radius
        actualResolution))

/-- `_combineTubes`: append all tube meshes into one. -/
def combineTubes (tubes : List (Mesh K)) : Mesh K :=
  tubes.foldl appendMesh Mesh.empty

/-- The position-distribution policy of `_createMultipleTubes` (merged
mode, lines 998-1024): span-based spreading centered on the base
position. -/
def multiTubePositions (totalLength tubeLength basePosition : K) (numberOfTubes : ℕ) :
    List K :=
  if numberOfTubes = 1 then [basePosition]
  else
    let totalSpanNeeded := ((numberOfTubes : K) - 1) * tubeLength * (4 / 5)
    let maxSpan := min totalSpanNeeded (totalLength - tubeLength)
    if maxSpan ≤ 0 then List.replicate numberOfTubes basePosition
    else
      let spanStart := max 0 (basePosition - maxSpan / (2 * totalLength))
      let spanEnd := min 1 (basePosition + maxSpan / (2 * totalLength))
      if numberOfTubes = 2 then [spanStart, spanEnd]
      else (List.range numberOfTubes).map (fun (i : ℕ) =>
        spanStart + ((i : K) / ((numberOfTubes : K) - 1)) * (spanEnd - spanStart))

/-- `_createMultipleTubes`: place the tubes, skip every placement with
fewer than 2 points, raise (`Except.error`) when no tube could be built,
return the single tube or the combination otherwise. -/
def createMultipleTubes (env : VtkEnv K) (pts : List (Pt K)) (radius tubeLength basePosition : K)
    (numberOfTubes resolution : ℕ) : Except String (Mesh K) :=
  let T := totalArcLength env.norm3 pts
  let positions := multiTubePositions T tubeLength basePosition numberOfTubes
  let tubes := positions.filterMap (fun pos =>
    let positionedPoints := positionTubeAlongCenterline env.norm3 pts tubeLength pos
    if 2 ≤ positionedPoints.length then
      some (createTubeAlongCurve env positionedPoints radius resolution)
    else none)
  if tubes.length = 0 then Except.error "Could not create any tubes"
  else if tubes.length = 1 then Except.ok (tubes.headD Mesh.empty)
  else Except.ok (combineTubes tubes)

/-- The position computation of `_createSeparateTubes` (lines 1063-1073):
one tube at the base position; two tubes at 0.2 and 0.8; more tubes spread
from 0.1 by steps of 0.8/(n-1). -/
def separateTubePositions (basePosition : K) (numberOfTubes : ℕ) : List K :=
  if numberOfTubes = 1 then [basePosition]
  else
    (List.range numberOfTubes).map (fun (i : ℕ) =>
      if numberOfTubes = 2 then 1 / 5 + (i : K) * (3 / 5)
      else 1 / 10 + (i : K) * ((4 / 5) / ((numberOfTubes : K) - 1)))

/-- `_extractBranchCenterline`: keep only the line segments with more than
2 point ids, bounds-check the branch index (returning the empty sequence
when it is out of range), and map the selected segment's ids to points. -/
def extractBranchCenterline (points : List (Pt K)) (lines : List (List ℕ))
    (branchIndex : ℤ) : List (Pt K) :=
  let lineSegments := lines.filter (fun seg => 2 < seg.length)
  if branchIndex < 0 ∨ (lineSegments.length : ℤ) ≤ branchIndex then []
  else (lineSegments.getD branchIndex.toNat []).map (fun pid => points.getD pid z3)

section Smoothing

variable [FloorRing K]

/-- The window-size computation of `_smoothCenterline` (lines 1255-1257):
`max(3, int(3 + factor * 4))`, made odd. -/
def windowSize (f : K) : ℕ :=
  let w : ℤ := max 3 ⌊3 + f * 4⌋
  (if w % 2 = 0 then w + 1 else w).toNat

/-- `_smoothCenterline`: unchanged for fewer than 3 points or a factor at
most 0; otherwise the interior points get a weighted moving average
(center weighted 2, the rest 1) and the result is the blend
`(1 - factor) * original + factor * smoothed`, endpoints untouched. -/
def smoothCenterline (pts : List (Pt K)) (f : K) : List (Pt K) :=
  if pts.length < 3 ∨ f ≤ 0 then pts
  else
    let n := pts.length
    let w := windowSize f
    let h := w / 2
    let orig : ℕ → Pt K := fun i => pts.getD i z3
    let wavg1 : (ℕ → K) → ℕ → K := fun c i =>
      (((List.range w).map (fun j => c (i - h + j))).sum + c i) / ((w : K) + 1)
    let smoothed : ℕ → Pt K := fun i =>
      if h ≤ i ∧ i + h < n then
        (wavg1 (fun j => (orig j).1) i,
         wavg1 (fun j => (orig j).2.1) i,
         wavg1 (fun j => (orig j).2.2) i)
      else orig i
    (List.range n).map (fun i =>
      ((1 - f) * (orig i).1 + f * (smoothed i).1,
       (1 - f) * (orig i).2.1 + f * (smoothed i).2.1,
       (1 - f) * (orig i).2.2 + f * (smoothed i).2.2))

end Smoothing

/-- `_applySplineSmoothing`: unchanged for fewer than 2 control points;
linear interpolation for exactly 2; otherwise one cardinal spline per
coordinate axis (the `vtkCardinalSpline` evaluator supplied as the
parameter `splineEval`, receiving the per-axis control list), sampled at
`numOutputPoints` evenly spaced parameters across `[0, n-1]`. -/
def applySplineSmoothing (splineEval : List (K × K) → K → K)
    (points : List (Pt K)) (numOutputPoints : ℕ) : List (Pt K) :=
  if points.length < 2 then points
  else if points.length = 2 then
    let p1 := points.getD 0 z3
    let p2 := points.getD 1 z3
    (List.range numOutputPoints).map (fun (i : ℕ) =>
      let t := (i : K) / ((numOutputPoints : K) - 1)
      (p1.1 + t * (p2.1 - p1.1), p1.2.1 + t * (p2.2.1 - p1.2.1),
       p1.2.2 + t * (p2.2.2 - p1.2.2)))
  else
    let n := points.length
    let xs := (List.range n).map (fun (i : ℕ) => ((i : K), (points.getD i z3).1))
    let ys := (List.range n).map (fun (i : ℕ) => ((i : K), (points.getD i z3).2.1))
    let zs := (List.range n).map (fun (i : ℕ) => ((i : K), (points.getD i z3).2.2))
    let maxT := (n : K) - 1
    (List.range numOutputPoints).map (fun (i : ℕ) =>
      let t := ((i : K) / ((numOutputPoints : K) - 1)) * maxT
      (splineEval xs t, splineEval ys t, splineEval zs t))

/-- `_reduceCenterlinePoints`: unchanged for at most 4 points; otherwise
select the first point, the points at indices `n/3` and `2n/3`, and the
last point, and return their spline smoothing with 20 output points. -/
def reduceCenterlinePoints (splineEval : List (K × K) → K → K)
    (points : List (Pt K)) : List (Pt K) :=
  if points.length < 2 then points
  else if points.length ≤ 4 then points
  else
    let n := points.length
    let reduced := [points.getD 0 z3, points.getD (n / 3) z3,
      points.getD (2 * n / 3) z3, points.getD (n - 1) z3]
    applySplineSmoothing splineEval reduced 20

/-- Absolute value on `ℚ` written with an explicit comparison, so that it
evaluates by kernel reduction. -/
def rabs (x : ℚ) : ℚ := if x < 0 then -x else x

/-- The taxicab norm on rational points, a concrete instance of the
`np.linalg.norm` parameter used for witnesses and counterexamples; it
agrees with the Euclidean norm on the axis-aligned configurations those
use. -/
def nrmL1 : Pt ℚ → ℚ := fun v => rabs v.1 + rabs v.2.1 + rabs v.2.2

/-- A concrete external-library environment over `ℚ` for witnesses. -/
def envQ : VtkEnv ℚ :=
  { tubeFilter := fun _ _ _ => Mesh.empty
    clean := id
    genNormals := id
    norm3 := nrmL1
    cos := fun _ => 1
    sin := fun _ => 0
    twoPi := 0 }

/-- A concrete straight two-point path of total arc length 100. -/
def ptsW : List (Pt ℚ) := [(0, 0, 0), (100, 0, 0)]

/-- A concrete five-point collinear path. -/
def pts5C : List (Pt ℚ) := [(0, 0, 0), (1, 0, 0), (2, 0, 0), (3, 0, 0), (4, 0, 0)]

/-- A concrete spline evaluator (constant zero), enough to exercise the
point-count behaviour of the spline stage, which is independent of the
evaluator. -/
def ev0 : List (ℚ × ℚ) → ℚ → ℚ := fun _ _ => 0

/-! ## Helper lemmas -/

theorem segPairs_cons₂ (a b : Pt K) (l : List (Pt K)) :
    segPairs (a :: b :: l) = (a, b) :: segPairs (b :: l) := rfl

theorem totalArcLength_cons₂ (nrm : Pt K → K) (a b : Pt K) (l : List (Pt K)) :
    totalArcLength nrm (a :: b :: l) = dist3 nrm a b + totalArcLength nrm (b :: l) := by
  simp [totalArcLength, segPairs_cons₂]

theorem totalArcLength_single (nrm : Pt K → K) (a : Pt K) :
    totalArcLength nrm [a] = 0 := rfl

theorem totalArcLength_nonneg (nrm : Pt K → K) (hnn : ∀ v, 0 ≤ nrm v)
    (pts : List (Pt K)) : 0 ≤ totalArcLength nrm pts := by
  refine List.sum_nonneg ?_
  intro x hx
  obtain ⟨pr, _, rfl⟩ := List.mem_map.mp hx
  exact hnn _

theorem totalArcLength_pos (nrm : Pt K → K) (hnn : ∀ v, 0 ≤ nrm v)
    (a b : Pt K) (l : List (Pt K))
    (hseg : ∀ pr ∈ segPairs (a :: b :: l), 0 < dist3 nrm pr.1 pr.2) :
    0 < totalArcLength nrm (a :: b :: l) := by
  rw [totalArcLength_cons₂]
  have h1 : 0 < dist3 nrm a b := hseg (a, b) (by rw [segPairs_cons₂]; exact List.mem_cons_self _ _)
  have h2 : 0 ≤ totalArcLength nrm (b :: l) := totalArcLength_nonneg nrm hnn _
  linarith

theorem tubeStartDistance_nonneg (T L p : K) : 0 ≤ tubeStartDistance T L p := by
  unfold tubeStartDistance
  split_ifs <;> simp [le_max_left]

theorem tubeStartDistance_lt (T L p : K) (hT : 0 < T) (hL : 0 < L) (hp1 : p ≤ 1) :
    tubeStartDistance T L p < T := by
  unfold tubeStartDistance
  split_ifs with h0 h1
  · exact hT
  · refine max_lt hT ?_
    linarith
  · refine max_lt hT ?_
    have : p * T ≤ T := mul_le_of_le_one_left hT.le hp1
    linarith

theorem sub3_lerp3_lerp3 (a b : Pt K) (s t : K) :
    sub3 (lerp3 a b t) (lerp3 a b s) = smul3 (t - s) (sub3 b a) := by
  simp only [sub3, lerp3, smul3, Prod.mk.injEq]
  refine ⟨by ring, by ring, by ring⟩

theorem lerp3_zero (a b : Pt K) : lerp3 a b 0 = a := by
  simp [lerp3]

theorem dist3_lerp3 (nrm : Pt K → K)
    (hhom : ∀ (c : K) (v : Pt K), 0 ≤ c → nrm (smul3 c v) = c * nrm v)
    (a b : Pt K) (s t : K) (hst : s ≤ t) :
    dist3 nrm (lerp3 a b s) (lerp3 a b t) = (t - s) * dist3 nrm a b := by
  unfold dist3
  rw [sub3_lerp3_lerp3, hhom _ _ (by linarith)]

theorem walkSegments_nil_of_le (nrm : Pt K → K) (startD endD : K)
    (hnn : ∀ v, 0 ≤ nrm v) (l : List (Pt K × Pt K)) :
    ∀ segStart : K, endD ≤ segStart → walkSegments nrm startD endD l segStart = [] := by
  induction l with
  | nil => intro segStart _; rfl
  | cons pr rest ih =>
    intro segStart hle
    show (if startD < segStart + dist3 nrm pr.1 pr.2 ∧ segStart < endD then _ else []) ++
      walkSegments nrm startD endD rest (segStart + dist3 nrm pr.1 pr.2) = []
    rw [if_neg, ih (segStart + dist3 nrm pr.1 pr.2)
      (le_trans hle (le_add_of_nonneg_right (hnn _)))]
    · rfl
    · rintro ⟨-, h2⟩
      exact absurd h2 (not_lt.mpr hle)

/-! ## Claim C1 -/

/-- Claim C1: for every path with at least 2 points, `extractSegment`
(`_positionTubeAlongCenterline`) computes its sub-range with start offset
0 when the position is 0, `max 0 (T - L)` when the position is 1,
`max 0 (p * T - L / 2)` otherwise, and end offset
`min T (start offset + L)` in every case. -/
theorem extractSegment_subrange (nrm : Pt K → K) (pts : List (Pt K)) (L p : K)
    (h : 2 ≤ pts.length) :
    positionTubeAlongCenterline nrm pts L p
      = extractRange nrm pts (tubeStartDistance (totalArcLength nrm pts) L p)
          (min (totalArcLength nrm pts) (tubeStartDistance (totalArcLength nrm pts) L p + L))
    ∧ (p = 0 → tubeStartDistance (totalArcLength nrm pts) L p = 0)
    ∧ (p = 1 → tubeStartDistance (totalArcLength nrm pts) L p
        = max 0 (totalArcLength nrm pts - L))
    ∧ (p ≠ 0 → p ≠ 1 → tubeStartDistance (totalArcLength nrm pts) L p
        = max 0 (p * totalArcLength nrm pts - L / 2)) := by
  refine ⟨?_, ?_, ?_, ?_⟩
  · unfold positionTubeAlongCenterline
    rw [if_neg (Nat.not_lt.mpr h)]
  · intro hp; simp [tubeStartDistance, hp]
  · intro hp; simp [tubeStartDistance, hp]
  · intro hp0 hp1; simp [tubeStartDistance, hp0, hp1]

/-- Witness for C1 at a concrete two-point path. -/
theorem extractSegment_subrange_witness :
    positionTubeAlongCenterline nrmL1 ptsW 20 (1 / 2)
      = extractRange nrmL1 ptsW (tubeStartDistance (totalArcLength nrmL1 ptsW) 20 (1 / 2))
          (min (totalArcLength nrmL1 ptsW)
            (tubeStartDistance (totalArcLength nrmL1 ptsW) 20 (1 / 2) + 20)) :=
  (extractSegment_subrange nrmL1 ptsW 20 (1 / 2) (by decide)).1

/-! ## Claim C4 -/

/-- Claim C4: for every input path with fewer than 2 points, `buildTube`
(`_createTubeAlongCurve`) yields its failure result — the empty mesh, with
no geometry — rather than a tube mesh. -/
theorem buildTube_insufficient_geometry (env : VtkEnv K) (pts : List (Pt K))
    (radius : K) (resolution : ℕ) (h : pts.length < 2) :
    createTubeAlongCurve env pts radius resolution = Mesh.empty := by
  unfold createTubeAlongCurve
  rw [if_pos h]

/-- Witness for C4 at a concrete one-point path. -/
theorem buildTube_insufficient_geometry_witness :
    ([((0 : ℚ), 0, 0)].length < 2)
    ∧ createTubeAlongCurve envQ [((0 : ℚ), 0, 0)] 2 16 = Mesh.empty :=
  ⟨by decide, buildTube_insufficient_geometry envQ [((0 : ℚ), 0, 0)] 2 16 (by decide)⟩

/-! ## Claim C9 -/

/-- Claim C9: branch selection by index (`_extractBranchCenterline`) is
bounds-checked: every index outside the range of available branch segments
(the line segments with more than 2 point ids) yields the empty point
sequence, the function's failure result, leaving recovery to the caller. -/
theorem branch_index_out_of_range (points : List (Pt K)) (lines : List (List ℕ))
    (branchIndex : ℤ)
    (h : branchIndex < 0 ∨
      ((lines.filter (fun seg => 2 < seg.length)).length : ℤ) ≤ branchIndex) :
    extractBranchCenterline points lines branchIndex = [] := by
  unfold extractBranchCenterline
  rw [if_pos]
  exact_mod_cast h

/-- Witness for C9 at a concrete out-of-range index. -/
theorem branch_index_out_of_range_witness :
    ((7 : ℤ) < 0 ∨
      ((([[0, 1, 2], [0]] : List (List ℕ)).filter (fun seg => 2 < seg.length)).length : ℤ) ≤ 7)
    ∧ extractBranchCenterline [((5 : ℚ), 5, 5)] [[0, 1, 2], [0]] 7 = [] :=
  ⟨by decide, branch_index_out_of_range [((5 : ℚ), 5, 5)] [[0, 1, 2], [0]] 7 (by decide)⟩

/-! ## Claim C10 -/

/-- Claim C10: `smooth` (`_smoothCenterline`) preserves the point count for
every input path and every smoothing factor. -/
theorem smooth_preserves_point_count [FloorRing K] (pts : List (Pt K)) (f : K) :
    (smoothCenterline pts f).length = pts.length := by
  unfold smoothCenterline
  split
  · rfl
  · simp

/-! ## Claim C5 -/

/-- Claim C5: each end cap built by `buildTube` (`_createCircularCap` with
the effective resolution) has exactly `resolution + 1` vertices — the
center first, then the rim points — and is triangulated as a fan of
`resolution` triangles from the center closing modulo `resolution`; the
end-cap stage adds `2 * (resolution + 1)` vertices to the tube body, and
the effective resolution of `_createTubeAlongCurve` is the requested one
floored to a minimum of 8. -/
theorem buildTube_cap_structure (env : VtkEnv K) (center normal : Pt K)
    (radius r : K) (ρ R : ℕ) (body : Mesh K) (pts : List (Pt K)) :
    (createCircularCap env center normal radius ρ).points.length = ρ + 1
    ∧ (createCircularCap env center normal radius ρ).points.headD z3 = center
    ∧ (createCircularCap env center normal radius ρ).tris
        = (List.range ρ).map (fun i => (0, i + 1, (i + 1) % ρ + 1))
    ∧ (addRigidEndCaps env body pts r ρ).points.length
        = body.points.length + 2 * (ρ + 1)
    ∧ createTubeAlongCurve env pts r R = createTubeAlongCurve env pts r (max R 8) := by
  refine ⟨by simp [createCircularCap], rfl, rfl, ?_, ?_⟩
  · simp only [addRigidEndCaps, appendMesh, createCircularCap, List.length_append,
      List.length_cons, List.length_map, List.length_range]
    ring
  · unfold createTubeAlongCurve
    have h : max (max R 8) 8 = max R 8 := by omega
    rw [h]

/-! ## Claim C7 -/

/-- Claim C7: in Separate-models mode (`_createSeparateTubes`), two tubes
are placed exactly at 0.2 and 0.8; more than two tubes are spread evenly
from 0.1 to 0.9 inclusive (arithmetic steps of 0.8/(n-1)); and the base
position is ignored whenever more than one tube is requested. -/
theorem separate_mode_positions (b b' : K) (n : ℕ) :
    separateTubePositions b 2 = [1 / 5, 4 / 5]
    ∧ (2 < n → separateTubePositions b n
        = (List.range n).map (fun (i : ℕ) => 1 / 10 + (i : K) * ((4 / 5) / ((n : K) - 1))))
    ∧ (2 < n → (separateTubePositions b n)[0]? = some (1 / 10))
    ∧ (2 < n → (separateTubePositions b n)[n - 1]? = some (9 / 10))
    ∧ (2 < n → ∀ i : ℕ, i + 1 < n →
        (separateTubePositions b n).getD (i + 1) 0 - (separateTubePositions b n).getD i 0
          = (4 / 5) / ((n : K) - 1))
    ∧ (1 < n → separateTubePositions b n = separateTubePositions b' n) := by
  have hmap : 2 < n → separateTubePositions b n
      = (List.range n).map (fun (i : ℕ) => 1 / 10 + (i : K) * ((4 / 5) / ((n : K) - 1))) := by
    intro h
    have h1 : n ≠ 1 := by omega
    have h2 : n ≠ 2 := by omega
    simp [separateTubePositions, h1, h2]
  have hne : 2 < n → ((n : K) - 1) ≠ 0 := by
    intro h
    have : (1 : K) < (n : K) := by exact_mod_cast (by omega : 1 < n)
    exact sub_ne_zero.mpr (ne_of_gt this)
  refine ⟨?_, hmap, ?_, ?_, ?_, ?_⟩
  · norm_num [separateTubePositions, List.range_succ]
  · intro h
    rw [hmap h, List.getElem?_map, List.getElem?_range (by omega : 0 < n)]
    norm_num
  · intro h
    have h0 := hne h
    rw [hmap h, List.getElem?_map, List.getElem?_range (by omega : n - 1 < n)]
    have hc : ((n - 1 : ℕ) : K) = (n : K) - 1 := by
      push_cast [Nat.cast_sub (by omega : 1 ≤ n)]
      ring
    simp only [Option.map_some', hc]
    congr 1
    field_simp
    ring
  · intro h i hi
    rw [hmap h]
    rw [List.getD_eq_getElem?_getD, List.getD_eq_getElem?_getD,
      List.getElem?_map, List.getElem?_map,
      List.getElem?_range (by omega : i + 1 < n), List.getElem?_range (by omega : i < n)]
    simp only [Option.map_some', Option.getD_some]
    push_cast
    ring
  · intro h
    have h1 : n ≠ 1 := by omega
    simp [separateTubePositions, h1]

/-! ## Claim C3 -/

/-- Claim C3 is refuted at a concrete five-point path: the function does
select the four control points but returns their 20-point spline
refinement, not the four points themselves. -/
theorem reduce_control_points_counterexample :
    reduceCenterlinePoints ev0 pts5C
        ≠ [((0 : ℚ), 0, 0), (1, 0, 0), (3, 0, 0), (4, 0, 0)]
    ∧ (reduceCenterlinePoints ev0 pts5C).length = 20 := by
  constructor
  · decide
  · decide

/-- Claim C3 (amended): for more than 4 points,
`_reduceCenterlinePoints` selects exactly the four control points — first,
index ⌊N/3⌋, index ⌊2N/3⌋, last — and returns their spline smoothing,
which has 20 points; for at most 4 points it returns the input unchanged
(hence is idempotent on such input). -/
theorem reduce_control_points_amended (ev : List (K × K) → K → K)
    (points : List (Pt K)) :
    ((reduceCenterlinePoints ev points).length
        = if 4 < points.length then 20 else points.length)
    ∧ (4 < points.length → reduceCenterlinePoints ev points
        = applySplineSmoothing ev [points.getD 0 z3, points.getD (points.length / 3) z3,
            points.getD (2 * points.length / 3) z3, points.getD (points.length - 1) z3] 20)
    ∧ (points.length ≤ 4 → reduceCenterlinePoints ev points = points
        ∧ reduceCenterlinePoints ev (reduceCenterlinePoints ev points)
            = reduceCenterlinePoints ev points) := by
  by_cases h4 : 4 < points.length
  · have hred : reduceCenterlinePoints ev points
        = applySplineSmoothing ev [points.getD 0 z3, points.getD (points.length / 3) z3,
            points.getD (2 * points.length / 3) z3, points.getD (points.length - 1) z3] 20 := by
      unfold reduceCenterlinePoints
      rw [if_neg (by omega), if_neg (by omega)]
    have hlen : (applySplineSmoothing ev [points.getD 0 z3, points.getD (points.length / 3) z3,
        points.getD (2 * points.length / 3) z3, points.getD (points.length - 1) z3] 20).length
        = 20 := by
      unfold applySplineSmoothing
      rw [if_neg (by simp), if_neg (by simp)]
      simp
    refine ⟨?_, fun _ => hred, fun hle => absurd h4 (by omega)⟩
    rw [hred, hlen, if_pos h4]
  · have hid : reduceCenterlinePoints ev points = points := by
      unfold reduceCenterlinePoints
      split_ifs with h1 h2
      · rfl
      · rfl
      · omega
    refine ⟨?_, fun hgt => absurd hgt h4, fun _ => ⟨hid, by rw [hid, hid]⟩⟩
    rw [hid, if_neg h4]

/-! ## Claim C6 -/

/-- Claim C6: `smooth` (`_smoothCenterline`) returns the input unchanged
whenever the factor is at most 0 (in particular `smooth(path, 0) = path`)
or the path has fewer than 3 points, and at factor 1 the first and last
`windowSize / 2` points are returned unchanged. -/
theorem smooth_identity_properties [FloorRing K] (pts : List (Pt K)) (f : K) :
    (f ≤ 0 → smoothCenterline pts f = pts)
    ∧ (pts.length < 3 → smoothCenterline pts f = pts)
    ∧ smoothCenterline pts 0 = pts
    ∧ (∀ i : ℕ, i < windowSize (1 : K) / 2 ∨ pts.length ≤ i + windowSize (1 : K) / 2 →
        (smoothCenterline pts 1)[i]? = pts[i]?) := by
  have hid : ∀ g : K, g ≤ 0 → smoothCenterline pts g = pts := by
    intro g hg
    unfold smoothCenterline
    rw [if_pos (Or.inr hg)]
  have hlen3 : pts.length < 3 → ∀ g : K, smoothCenterline pts g = pts := by
    intro h g
    unfold smoothCenterline
    rw [if_pos (Or.inl h)]
  have hws : windowSize (1 : K) = 7 := by
    unfold windowSize
    norm_num
    decide
  refine ⟨hid f, fun h => hlen3 h f, hid 0 le_rfl, ?_⟩
  intro i hi
  rw [hws] at hi
  norm_num at hi
  by_cases h3 : pts.length < 3
  · rw [hlen3 h3 1]
  · have hcond : ¬(pts.length < 3 ∨ (1 : K) ≤ 0) := by
      push_neg
      exact ⟨by omega, by norm_num⟩
    unfold smoothCenterline
    rw [if_neg hcond]
    by_cases hin : i < pts.length
    · rw [List.getElem?_map, List.getElem?_range hin, Option.map_some',
        List.getElem?_eq_getElem hin]
      congr 1
      have hsm : ¬(windowSize (1 : K) / 2 ≤ i ∧ i + windowSize (1 : K) / 2 < pts.length) := by
        rw [hws]
        omega
      simp only [if_neg hsm]
      rw [List.getD_eq_getElem pts z3 hin]
      simp
    · rw [List.getElem?_eq_none (by simpa using hin),
        List.getElem?_eq_none (by omega : pts.length ≤ i)]

/-! ## Helper for Claim C8 -/

theorem filterMap_ite_eq_filter_map {α β : Type*} (l : List α) (p : α → Prop)
    [DecidablePred p] (f : α → β) :
    l.filterMap (fun x => if p x then some (f x) else none)
      = (l.filter (fun x => decide (p x))).map f := by
  induction l with
  | nil => rfl
  | cons a t ih =>
    by_cases h : p a
    · simp [List.filterMap_cons, List.filter_cons, h, ih]
    · simp [List.filterMap_cons, List.filter_cons, h, ih]

/-! ## Claim C8 -/

/-- Claim C8: in a multi-tube batch (`_createMultipleTubes`), every
placement with fewer than 2 points is skipped and the batch continues —
the result is computed from exactly the successful placements — and the
batch fails with the no-tubes error if and only if every placement is
degenerate. -/
theorem multiTubes_skip_and_error (env : VtkEnv K) (pts : List (Pt K))
    (radius L b : K) (n res : ℕ) :
    (createMultipleTubes env pts radius L b n res
        = Except.error "Could not create any tubes"
      ↔ ∀ pos ∈ multiTubePositions (totalArcLength env.norm3 pts) L b n,
          (positionTubeAlongCenterline env.norm3 pts L pos).length < 2)
    ∧ createMultipleTubes env pts radius L b n res =
        (let tubes := ((multiTubePositions (totalArcLength env.norm3 pts) L b n).filter
            (fun pos => decide (2 ≤ (positionTubeAlongCenterline env.norm3 pts L pos).length))).map
            (fun pos => createTubeAlongCurve env
              (positionTubeAlongCenterline env.norm3 pts L pos) radius res)
         if tubes.length = 0 then Except.error "Could not create any tubes"
         else if tubes.length = 1 then Except.ok (tubes.headD Mesh.empty)
         else Except.ok (combineTubes tubes)) := by
  have hfm : (multiTubePositions (totalArcLength env.norm3 pts) L b n).filterMap
      (fun pos =>
        if 2 ≤ (positionTubeAlongCenterline env.norm3 pts L pos).length then
          some (createTubeAlongCurve env
            (positionTubeAlongCenterline env.norm3 pts L pos) radius res)
        else none)
      = ((multiTubePositions (totalArcLength env.norm3 pts) L b n).filter
          (fun pos => decide (2 ≤ (positionTubeAlongCenterline env.norm3 pts L pos).length))).map
          (fun pos => createTubeAlongCurve env
            (positionTubeAlongCenterline env.norm3 pts L pos) radius res) :=
    filterMap_ite_eq_filter_map _ _ _
  constructor
  · simp only [createMultipleTubes]
    constructor
    · intro he
      by_cases h0 : ((multiTubePositions (totalArcLength env.norm3 pts) L b n).filterMap
          (fun pos =>
            if 2 ≤ (positionTubeAlongCenterline env.norm3 pts L pos).length then
              some (createTubeAlongCurve env
                (positionTubeAlongCenterline env.norm3 pts L pos) radius res)
            else none)).length = 0
      · intro pos hmem
        have hnil := List.length_eq_zero.mp h0
        have := (List.filterMap_eq_nil_iff.mp hnil) pos hmem
        by_contra hge
        rw [if_pos (by omega)] at this
        exact Option.noConfusion this
      · rw [if_neg h0] at he
        split_ifs at he
    · intro hall
      rw [if_pos]
      rw [List.length_eq_zero]
      refine List.filterMap_eq_nil_iff.mpr ?_
      intro pos hmem
      rw [if_neg (by have := hall pos hmem; omega)]
  · simp only [createMultipleTubes]
    rw [hfm]

/-! ## Helpers for Claim C2 -/

theorem dist3_lerp3_from_left (nrm : Pt K → K)
    (hhom : ∀ (c : K) (v : Pt K), 0 ≤ c → nrm (smul3 c v) = c * nrm v)
    (a b : Pt K) (t : K) (ht : 0 ≤ t) :
    dist3 nrm a (lerp3 a b t) = t * dist3 nrm a b := by
  have h := dist3_lerp3 nrm hhom a b 0 t ht
  rw [lerp3_zero] at h
  simpa using h

theorem rabs_eq_abs (x : ℚ) : rabs x = |x| := by
  unfold rabs
  split_ifs with h
  · rw [abs_of_neg h]
  · rw [abs_of_nonneg (not_lt.mp h)]

theorem nrmL1_nonneg : ∀ v : Pt ℚ, 0 ≤ nrmL1 v := by
  intro v
  unfold nrmL1
  simp only [rabs_eq_abs]
  positivity

theorem nrmL1_homog : ∀ (c : ℚ) (v : Pt ℚ), 0 ≤ c → nrmL1 (smul3 c v) = c * nrmL1 v := by
  intro c v hc
  unfold nrmL1 smul3
  simp only [rabs_eq_abs, abs_mul, abs_of_nonneg hc]
  ring

/-- Arc length collected by the walk when the start offset is 0: starting
at accumulated distance `cacc < endD`, the emitted points cover exactly the
range from `cacc` to `min endD (cacc + remaining length)`. -/
theorem walkSegments_arc_from_zero (nrm : Pt K → K) (endD : K)
    (hnn : ∀ v, 0 ≤ nrm v)
    (hhom : ∀ (c : K) (v : Pt K), 0 ≤ c → nrm (smul3 c v) = c * nrm v) :
    ∀ (rest : List (Pt K)) (a : Pt K) (cacc : K),
      (∀ pr ∈ segPairs (a :: rest), 0 < dist3 nrm pr.1 pr.2) →
      0 ≤ cacc → cacc < endD →
      totalArcLength nrm (a :: walkSegments nrm 0 endD (segPairs (a :: rest)) cacc)
        = min endD (cacc + totalArcLength nrm (a :: rest)) - cacc := by
  intro rest
  induction rest with
  | nil =>
    intro a cacc _ _ hlt
    have h1 : segPairs ([a] : List (Pt K)) = [] := rfl
    have h2 : walkSegments nrm 0 endD ([] : List (Pt K × Pt K)) cacc = [] := rfl
    rw [h1, h2, totalArcLength_single, add_zero, min_eq_right hlt.le]
    ring
  | cons b rest ih =>
    intro a cacc hpairs hc0 hclt
    have hd : 0 < dist3 nrm a b :=
      hpairs (a, b) (by rw [segPairs_cons₂]; exact List.mem_cons_self _ _)
    have hpairs' : ∀ pr ∈ segPairs (b :: rest), 0 < dist3 nrm pr.1 pr.2 := by
      intro pr hpr
      exact hpairs pr (by rw [segPairs_cons₂]; exact List.mem_cons_of_mem _ hpr)
    have hTb : 0 ≤ totalArcLength nrm (b :: rest) := totalArcLength_nonneg nrm hnn _
    rw [segPairs_cons₂]
    rw [show walkSegments nrm 0 endD ((a, b) :: segPairs (b :: rest)) cacc
        = (if (0 : K) < cacc + dist3 nrm a b ∧ cacc < endD then
            (if cacc < 0 ∧ (0 : K) < cacc + dist3 nrm a b then
              [lerp3 a b ((0 - cacc) / dist3 nrm a b)] else [])
            ++ (if (0 : K) ≤ cacc ∧ cacc + dist3 nrm a b ≤ endD then [b] else [])
            ++ (if cacc < endD ∧ endD < cacc + dist3 nrm a b then
              [lerp3 a b ((endD - cacc) / dist3 nrm a b)] else [])
          else [])
          ++ walkSegments nrm 0 endD (segPairs (b :: rest)) (cacc + dist3 nrm a b)
        from rfl]
    rw [if_pos ⟨add_pos_of_nonneg_of_pos hc0 hd, hclt⟩]
    rw [if_neg (by rintro ⟨h1, -⟩; exact absurd h1 (not_lt.mpr hc0))]
    by_cases hce : cacc + dist3 nrm a b ≤ endD
    · rw [if_pos ⟨hc0, hce⟩,
        if_neg (by rintro ⟨-, h2⟩; exact absurd h2 (not_lt.mpr hce))]
      simp only [List.nil_append, List.append_nil, List.singleton_append]
      by_cases hlt : cacc + dist3 nrm a b < endD
      · rw [totalArcLength_cons₂]
        rw [ih b (cacc + dist3 nrm a b) hpairs' (by linarith) hlt]
        rw [totalArcLength_cons₂ nrm a b rest, ← add_assoc]
        ring
      · have he : cacc + dist3 nrm a b = endD := le_antisymm hce (not_lt.mp hlt)
        rw [walkSegments_nil_of_le nrm 0 endD hnn _ _ he.ge]
        rw [totalArcLength_cons₂, totalArcLength_single,
          totalArcLength_cons₂ nrm a b rest]
        rw [min_eq_left (by linarith :
          endD ≤ cacc + (dist3 nrm a b + totalArcLength nrm (b :: rest)))]
        linarith
    · push_neg at hce
      rw [if_neg (by rintro ⟨-, h2⟩; exact absurd h2 (not_le.mpr hce))]
      rw [if_pos ⟨hclt, hce⟩]
      rw [walkSegments_nil_of_le nrm 0 endD hnn _ _ hce.le]
      simp only [List.nil_append, List.append_nil, List.singleton_append]
      rw [totalArcLength_cons₂, totalArcLength_single,
        totalArcLength_cons₂ nrm a b rest]
      have hlerp : dist3 nrm a (lerp3 a b ((endD - cacc) / dist3 nrm a b))
          = endD - cacc := by
        rw [dist3_lerp3_from_left nrm hhom a b _
          (div_nonneg (by linarith) hd.le)]
        exact div_mul_cancel₀ _ (ne_of_gt hd)
      rw [hlerp]
      rw [min_eq_left (by linarith :
        endD ≤ cacc + (dist3 nrm a b + totalArcLength nrm (b :: rest)))]
      ring


/-! ## Claim C2 -/

/-- Claim C2 is refuted at a concrete straight two-point path of length
100 with tube length 20 at position 19/20: the extraction emits a single
point (the exact path end is only inserted for fully covered edges), so
the output arc length is 0, not `min 20 100 = 20`. -/
theorem extractSegment_arcLength_counterexample :
    positionTubeAlongCenterline nrmL1 ptsW 20 (19 / 20) = [(85, 0, 0)]
    ∧ totalArcLength nrmL1 (positionTubeAlongCenterline nrmL1 ptsW 20 (19 / 20)) = 0
    ∧ min 20 (totalArcLength nrmL1 ptsW) = 20
    ∧ totalArcLength nrmL1 (positionTubeAlongCenterline nrmL1 ptsW 20 (19 / 20))
        ≠ min 20 (totalArcLength nrmL1 ptsW) := by
  have hT : totalArcLength nrmL1 ptsW = 100 := by
    norm_num [totalArcLength, segPairs, ptsW, dist3, sub3, nrmL1, rabs]
  have hs : tubeStartDistance (100 : ℚ) 20 (19 / 20) = 85 := by
    norm_num [tubeStartDistance, max_def]
  have hpt : positionTubeAlongCenterline nrmL1 ptsW 20 (19 / 20) = [(85, 0, 0)] := by
    simp only [positionTubeAlongCenterline]
    rw [if_neg (by norm_num [ptsW]), hT, hs]
    unfold extractRange
    rw [if_neg (by norm_num : ¬((85 : ℚ) = 0))]
    rw [show segPairs ptsW = [(((0 : ℚ), 0, 0), ((100 : ℚ), 0, 0))] from rfl]
    rw [show min (100 : ℚ) (85 + 20) = 100 by norm_num [min_def]]
    simp only [walkSegments]
    norm_num [dist3, sub3, nrmL1, rabs, lerp3]
  refine ⟨hpt, ?_, ?_, ?_⟩
  · rw [hpt, totalArcLength_single]
  · rw [hT]; norm_num [min_def]
  · rw [hpt, totalArcLength_single, hT]; norm_num [min_def]

/-- Claim C2 (amended): for a non-degenerate path (at least 2 points, all
segments of positive length, a norm that is nonnegative and positively
homogeneous) and tube length `L > 0`, the arc length of the extracted
sub-sequence equals `min L totalLength` at position 0; at a general
position in `[0, 1]` the guarantee weakens — on a single-segment path the
arc length is `min totalLength L` when the computed start offset is 0, `L`
when the centered window ends strictly before the path end, and 0
otherwise (the extraction is truncated to a single point at the tail). -/
theorem extractSegment_arcLength_amended (nrm : Pt K → K) (pts : List (Pt K)) (L p : K)
    (hnn : ∀ v, 0 ≤ nrm v)
    (hhom : ∀ (c : K) (v : Pt K), 0 ≤ c → nrm (smul3 c v) = c * nrm v)
    (hlen : 2 ≤ pts.length)
    (hseg : ∀ pr ∈ segPairs pts, 0 < dist3 nrm pr.1 pr.2)
    (hL : 0 < L) (hp0 : 0 ≤ p) (hp1 : p ≤ 1) :
    totalArcLength nrm (positionTubeAlongCenterline nrm pts L 0)
        = min L (totalArcLength nrm pts)
    ∧ (∀ a c : Pt K, pts = [a, c] →
        totalArcLength nrm (positionTubeAlongCenterline nrm pts L p)
          = (if tubeStartDistance (dist3 nrm a c) L p = 0 then min (dist3 nrm a c) L
             else if tubeStartDistance (dist3 nrm a c) L p + L < dist3 nrm a c then L
             else 0)) := by
  constructor
  · match pts, hlen with
    | a :: b :: rest, _ =>
      have hseg' : ∀ pr ∈ segPairs (a :: b :: rest), 0 < dist3 nrm pr.1 pr.2 := hseg
      have hT : 0 < totalArcLength nrm (a :: b :: rest) :=
        totalArcLength_pos nrm hnn a b rest hseg'
      have hs0 : tubeStartDistance (totalArcLength nrm (a :: b :: rest)) L 0 = 0 := by
        simp [tubeStartDistance]
      have hrw : positionTubeAlongCenterline nrm (a :: b :: rest) L 0
          = extractRange nrm (a :: b :: rest) 0
              (min (totalArcLength nrm (a :: b :: rest)) (0 + L)) := by
        simp only [positionTubeAlongCenterline]
        rw [if_neg (by simp), hs0]
      rw [hrw]
      unfold extractRange
      rw [if_pos rfl]
      simp only [List.headD_cons, List.singleton_append]
      rw [walkSegments_arc_from_zero nrm
        (min (totalArcLength nrm (a :: b :: rest)) (0 + L)) hnn hhom (b :: rest) a 0
        hseg' le_rfl (by rw [zero_add]; exact lt_min hT hL)]
      rw [zero_add, zero_add, sub_zero,
        min_eq_left (min_le_left (totalArcLength nrm (a :: b :: rest)) L), min_comm]
  · rintro a c rfl
    have hd : 0 < dist3 nrm a c :=
      hseg (a, c) (by rw [segPairs_cons₂]; exact List.mem_cons_self _ _)
    have hT2 : totalArcLength nrm [a, c] = dist3 nrm a c := by
      rw [totalArcLength_cons₂, totalArcLength_single, add_zero]
    set d := dist3 nrm a c with hd_def
    set s := tubeStartDistance d L p with hs_def
    have hs0 : 0 ≤ s := tubeStartDistance_nonneg _ _ _
    have hsd : s < d := tubeStartDistance_lt _ _ _ hd hL hp1
    have he_pos : 0 < min d (s + L) := lt_min hd (by linarith)
    have hrw : positionTubeAlongCenterline nrm [a, c] L p
        = extractRange nrm [a, c] s (min d (s + L)) := by
      simp only [positionTubeAlongCenterline]
      rw [if_neg (by simp), hT2, ← hs_def]
    rw [hrw]
    unfold extractRange
    rw [show segPairs ([a, c] : List (Pt K)) = [(a, c)] from rfl]
    rw [show walkSegments nrm s (min d (s + L)) [(a, c)] 0
        = (if s < 0 + dist3 nrm a c ∧ (0 : K) < min d (s + L) then
            (if (0 : K) < s ∧ s < 0 + dist3 nrm a c then
              [lerp3 a c ((s - 0) / dist3 nrm a c)] else [])
            ++ (if s ≤ 0 ∧ 0 + dist3 nrm a c ≤ min d (s + L) then [c] else [])
            ++ (if (0 : K) < min d (s + L) ∧ min d (s + L) < 0 + dist3 nrm a c then
              [lerp3 a c ((min d (s + L) - 0) / dist3 nrm a c)] else [])
          else [])
          ++ walkSegments nrm s (min d (s + L)) [] (0 + dist3 nrm a c)
        from rfl]
    rw [show walkSegments nrm s (min d (s + L)) ([] : List (Pt K × Pt K))
        (0 + dist3 nrm a c) = [] from rfl]
    rw [← hd_def]
    simp only [zero_add, sub_zero, List.headD_cons]
    have hguard : s < d ∧ 0 < min d (s + L) := ⟨hsd, he_pos⟩
    rw [if_pos hguard]
    by_cases hs : s = 0
    · rw [if_pos hs]
      have hb1 : ¬(0 < s ∧ s < d) := by
        rintro ⟨h1, -⟩
        rw [hs] at h1
        exact lt_irrefl 0 h1
      rw [if_neg hb1]
      by_cases hdL : d ≤ L
      · have hmin : min d (s + L) = d := by
          rw [hs, zero_add]
          exact min_eq_left hdL
        rw [hmin]
        have hb2 : s ≤ 0 ∧ d ≤ d := ⟨le_of_eq hs, le_rfl⟩
        rw [if_pos hb2]
        have hb3 : ¬(0 < d ∧ d < d) := by
          rintro ⟨-, h2⟩
          exact lt_irrefl d h2
        rw [if_neg hb3]
        simp only [List.nil_append, List.append_nil, List.singleton_append]
        rw [totalArcLength_cons₂, totalArcLength_single, ← hd_def, if_pos hs,
          min_eq_left hdL]
        ring
      · push_neg at hdL
        have hmin : min d (s + L) = s + L := by
          rw [hs, zero_add]
          exact min_eq_right hdL.le
        rw [hmin]
        have hb2 : ¬(s ≤ 0 ∧ d ≤ s + L) := by
          rintro ⟨-, h2⟩
          rw [hs, zero_add] at h2
          exact absurd h2 (not_le.mpr hdL)
        rw [if_neg hb2]
        have hb3 : 0 < s + L ∧ s + L < d := by
          constructor
          · linarith
          · rw [hs, zero_add]
            exact hdL
        rw [if_pos hb3]
        simp only [List.nil_append, List.append_nil, List.singleton_append]
        rw [totalArcLength_cons₂, totalArcLength_single]
        have hl : dist3 nrm a (lerp3 a c ((s + L) / d)) = s + L := by
          rw [dist3_lerp3_from_left nrm hhom a c _
            (div_nonneg (by linarith) hd.le), ← hd_def]
          exact div_mul_cancel₀ _ (ne_of_gt hd)
        rw [hl, if_pos hs, hs, zero_add, min_eq_right hdL.le]
        ring
    · have hs' : 0 < s := lt_of_le_of_ne hs0 (Ne.symm hs)
      rw [if_neg hs]
      have hb1 : 0 < s ∧ s < d := ⟨hs', hsd⟩
      rw [if_pos hb1]
      have hb2 : ¬(s ≤ 0 ∧ d ≤ min d (s + L)) := by
        rintro ⟨h1, -⟩
        exact absurd h1 (not_le.mpr hs')
      rw [if_neg hb2]
      by_cases hsL : s + L < d
      · have hmin : min d (s + L) = s + L := min_eq_right hsL.le
        rw [hmin]
        have hb3 : 0 < min d (s + L) ∧ s + L < d := by
          constructor
          · rw [hmin]; linarith
          · exact hsL
        rw [hmin] at hb3
        rw [if_pos hb3]
        simp only [List.nil_append, List.append_nil, List.singleton_append]
        rw [totalArcLength_cons₂, totalArcLength_single]
        have hdiv : s / d ≤ (s + L) / d := by
          apply div_le_div_of_nonneg_right ?_ hd.le
          · linarith
        have hdd : dist3 nrm (lerp3 a c (s / d)) (lerp3 a c ((s + L) / d)) = L := by
          rw [dist3_lerp3 nrm hhom a c (s / d) ((s + L) / d) hdiv, ← hd_def,
            div_sub_div_same, add_sub_cancel_left]
          exact div_mul_cancel₀ _ (ne_of_gt hd)
        rw [hdd, if_neg hs, if_pos hsL]
        ring
      · push_neg at hsL
        have hmin : min d (s + L) = d := min_eq_left hsL
        rw [hmin]
        have hb3 : ¬(0 < d ∧ d < d) := by
          rintro ⟨-, h2⟩
          exact lt_irrefl d h2
        rw [if_neg hb3]
        simp only [List.nil_append, List.append_nil, List.singleton_append]
        rw [totalArcLength_single, if_neg hs, if_neg (not_lt.mpr hsL)]

/-- Witness for the amended C2 at a concrete two-point path. -/
theorem extractSegment_arcLength_amended_witness :
    totalArcLength nrmL1 (positionTubeAlongCenterline nrmL1 ptsW 20 0)
        = min 20 (totalArcLength nrmL1 ptsW)
    ∧ (∀ a c : Pt ℚ, ptsW = [a, c] →
        totalArcLength nrmL1 (positionTubeAlongCenterline nrmL1 ptsW 20 (19 / 20))
          = (if tubeStartDistance (dist3 nrmL1 a c) 20 (19 / 20) = 0
              then min (dist3 nrmL1 a c) 20
             else if tubeStartDistance (dist3 nrmL1 a c) 20 (19 / 20) + 20 < dist3 nrmL1 a c
              then 20
             else 0)) :=
  extractSegment_arcLength_amended nrmL1 ptsW 20 (19 / 20) nrmL1_nonneg nrmL1_homog
    (by norm_num [ptsW])
    (by
      intro pr hpr
      rw [show segPairs ptsW = [(((0 : ℚ), 0, 0), ((100 : ℚ), 0, 0))] from rfl,
        List.mem_singleton] at hpr
      subst hpr
      norm_num [dist3, sub3, nrmL1, rabs])
    (by norm_num) (by norm_num) (by norm_num)
